import Mathlib

/-!
Shallow embedding of the in-memory topic-collection editor
(`Category` component: `handleCreateTopic`, `handleDeleteTopic`,
`handleUpdateTopic`, `filteredTopics`) and the per-topic view
(`Topic` component) of the repository, together with theorems
settling the specification's claims about them.
-/

namespace VibeCoding

/-- `Topic` record from `types.ts`: `{ id: string; name: string }`. -/
structure Topic where
  id : String
  name : String
  deriving DecidableEq, Repr

/-- JavaScript `String.prototype.trim()`: remove leading and trailing
whitespace.  Modelled on the character sequence of the string. -/
def jsTrim (s : String) : String :=
  ⟨((s.data.dropWhile Char.isWhitespace).reverse.dropWhile Char.isWhitespace).reverse⟩

/-- JavaScript `String.prototype.toLowerCase()`: lowercase every character. -/
def jsToLower (s : String) : String :=
  ⟨s.data.map Char.toLower⟩

/-- Component state of the `Category` component: the `topics` list,
the `newTopicName` input buffer and the `filter` text
(the three `useState` hooks). -/
structure CategoryState where
  topics : List Topic
  newTopicName : String
  filterText : String
  deriving DecidableEq, Repr

/-- `handleCreateTopic`: if `newTopicName.trim() !== ''`, prepend a new
topic `{ id: freshId, name: newTopicName.trim() }` to `topics` and clear
the `newTopicName` buffer; otherwise do nothing.  The fresh identifier
(produced by `v1()` in the source) is passed in explicitly. -/
def handleCreateTopic (freshId : String) (s : CategoryState) : CategoryState :=
  if jsTrim s.newTopicName ≠ "" then
    { s with
      topics := { id := freshId, name := jsTrim s.newTopicName } :: s.topics,
      newTopicName := "" }
  else
    s

/-- `handleDeleteTopic`: `topics.filter((topic) => topic.id !== id)`. -/
def handleDeleteTopic (id : String) (topics : List Topic) : List Topic :=
  topics.filter (fun topic => topic.id ≠ id)

/-- `handleUpdateTopic`: map over the topics, replacing the topic whose id
matches by a copy of it whose name is `newName`, all others unchanged. -/
def handleUpdateTopic (id : String) (newName : String) (topics : List Topic) : List Topic :=
  topics.map (fun topic => if topic.id = id then { topic with name := newName } else topic)

/-- JavaScript `haystack.includes(needle)`: `needle` occurs as a contiguous
substring of `haystack`. -/
def strIncludes (haystack needle : String) : Bool :=
  decide (needle.data <:+: haystack.data)

/-- Case-insensitive substring test:
`topic.name.toLowerCase().includes(filter.toLowerCase())`. -/
def nameMatches (filterText : String) (topic : Topic) : Bool :=
  strIncludes (jsToLower topic.name) (jsToLower filterText)

/-- `filteredTopics`: `topics.filter((topic) =>
topic.name.toLowerCase().includes(filter.toLowerCase()))`. -/
def filteredTopics (filterText : String) (topics : List Topic) : List Topic :=
  topics.filter (nameMatches filterText)

/-- The names of all topic identifiers in a collection, in order. -/
def topicIds (topics : List Topic) : List String :=
  topics.map Topic.id

/-- One user-level store operation on the topic collection: the three
mutating handlers of the `Category` component.  A `create` carries the
fresh identifier that `v1()` returned for it together with the raw
contents of the name input buffer. -/
inductive StoreOp where
  | create (freshId : String) (rawName : String)
  | delete (id : String)
  | rename (id : String) (newName : String)
  deriving DecidableEq, Repr

/-- The effect of one store operation on the topic collection, routed
through the corresponding embedded handler.  A `create` acts through
`handleCreateTopic` on a state whose input buffer holds the raw name. -/
def applyOp (op : StoreOp) (topics : List Topic) : List Topic :=
  match op with
  | StoreOp.create freshId rawName =>
      (handleCreateTopic freshId
        { topics := topics, newTopicName := rawName, filterText := "" }).topics
  | StoreOp.delete id => handleDeleteTopic id topics
  | StoreOp.rename id newName => handleUpdateTopic id newName topics

/-- Run a finite sequence of store operations from left to right. -/
def runOps (ops : List StoreOp) (topics : List Topic) : List Topic :=
  match ops with
  | [] => topics
  | op :: rest => runOps rest (applyOp op topics)

/-- The fresh identifiers carried by the `create` operations of a
sequence, in order. -/
def createIds (ops : List StoreOp) : List String :=
  match ops with
  | [] => []
  | StoreOp.create freshId _ :: rest => freshId :: createIds rest
  | _ :: rest => createIds rest

/-- Message a `Topic` component sends upward to the `Category` component
through its `onDelete` and `onUpdate` callbacks. -/
inductive StoreMsg where
  | deleteTopic (id : String)
  | updateTopic (id : String) (newName : String)
  deriving DecidableEq, Repr

/-- Local state of one `Topic` component: the id of its backing topic,
the `isEditing` flag and the local `name` buffer. -/
structure TopicViewState where
  topicId : String
  isEditing : Bool
  nameBuffer : String
  deriving DecidableEq, Repr

/-- Initial state of a mounted `Topic` component: view mode, with the
`name` buffer seeded from the topic's name (`React.useState(topic.name)`). -/
def topicViewInit (t : Topic) : TopicViewState :=
  { topicId := t.id, isEditing := false, nameBuffer := t.name }

/-- A user interaction with one `Topic` component: clicking the Edit
button, typing in the name input, clicking Save, clicking Delete. -/
inductive ViewEvent where
  | clickEdit
  | changeName (s : String)
  | clickSave
  | clickDelete
  deriving DecidableEq, Repr

/-- One step of the `Topic` component: the new local state plus the
message (if any) sent to the store.  The Edit button and the name input
are only rendered in view mode and edit mode respectively, so the
corresponding events are no-ops in the other mode; the Delete button is
rendered unconditionally.  Save (`handleUpdate`) invokes
`onUpdate(topic.id, name)` and leaves edit mode. -/
def topicViewStep (s : TopicViewState) (e : ViewEvent) : TopicViewState × Option StoreMsg :=
  match e with
  | ViewEvent.clickEdit =>
      if s.isEditing then (s, none) else ({ s with isEditing := true }, none)
  | ViewEvent.changeName newName =>
      if s.isEditing then ({ s with nameBuffer := newName }, none) else (s, none)
  | ViewEvent.clickSave =>
      if s.isEditing then
        ({ s with isEditing := false }, some (StoreMsg.updateTopic s.topicId s.nameBuffer))
      else (s, none)
  | ViewEvent.clickDelete => (s, some (StoreMsg.deleteTopic s.topicId))

end VibeCoding


namespace VibeCoding

/-- Claim C1: `create` is a no-op when the raw name trims to the empty
string, and otherwise replaces the collection with a new topic (fresh
identifier, trimmed name) at the head, followed by the previous
collection unchanged. -/
theorem handleCreateTopic_spec (freshId : String) (s : CategoryState) :
    (jsTrim s.newTopicName = "" → handleCreateTopic freshId s = s) ∧
    (jsTrim s.newTopicName ≠ "" →
      (handleCreateTopic freshId s).topics =
        { id := freshId, name := jsTrim s.newTopicName } :: s.topics) := by
  constructor
  · intro h
    simp [handleCreateTopic, h]
  · intro h
    simp [handleCreateTopic, h]

theorem handleCreateTopic_spec_witness :
    handleCreateTopic "5" { topics := [], newTopicName := "   ", filterText := "" } =
      { topics := [], newTopicName := "   ", filterText := "" } ∧
    (handleCreateTopic "5"
        { topics := [{ id := "1", name := "HTML" }], newTopicName := " TS ", filterText := "" }).topics =
      [{ id := "5", name := "TS" }, { id := "1", name := "HTML" }] :=
  ⟨(handleCreateTopic_spec "5" _).1 (by decide),
   by rw [(handleCreateTopic_spec "5" _).2 (by decide)]; decide⟩

/-- Claim C9: when the input buffer trims to the empty string, `create`
leaves the buffer (and the collection) unchanged; the buffer is reset to
the empty string exactly when a topic is actually added. -/
theorem handleCreateTopic_buffer_frame (freshId : String) (s : CategoryState) :
    (jsTrim s.newTopicName = "" →
      (handleCreateTopic freshId s).newTopicName = s.newTopicName ∧
      (handleCreateTopic freshId s).topics = s.topics) ∧
    (jsTrim s.newTopicName ≠ "" →
      (handleCreateTopic freshId s).newTopicName = "" ∧
      (handleCreateTopic freshId s).topics =
        { id := freshId, name := jsTrim s.newTopicName } :: s.topics) := by
  constructor
  · intro h
    simp [handleCreateTopic, h]
  · intro h
    simp [handleCreateTopic, h]

theorem handleCreateTopic_buffer_frame_witness :
    (handleCreateTopic "5" { topics := [], newTopicName := "  ", filterText := "" }).newTopicName
      = "  " ∧
    (handleCreateTopic "5" { topics := [], newTopicName := "x", filterText := "" }).newTopicName
      = "" :=
  ⟨((handleCreateTopic_buffer_frame "5" _).1 (by decide)).1,
   ((handleCreateTopic_buffer_frame "5" _).2 (by decide)).1⟩

/-- Claim C2: `delete` keeps exactly the topics whose id differs from the
given identifier, in their original relative order, and is a no-op (no
error) when no topic carries that identifier. -/
theorem handleDeleteTopic_spec (id : String) (topics : List Topic) :
    (handleDeleteTopic id topics).Sublist topics ∧
    (∀ t, t ∈ handleDeleteTopic id topics ↔ t ∈ topics ∧ t.id ≠ id) ∧
    (handleDeleteTopic id topics).length = topics.countP (fun t => t.id ≠ id) ∧
    ((∀ t ∈ topics, t.id ≠ id) → handleDeleteTopic id topics = topics) := by
  refine ⟨List.filter_sublist _, fun t => ?_, Eq.symm (List.countP_eq_length_filter _ _), fun h => ?_⟩
  · simp [handleDeleteTopic, List.mem_filter]
  · exact List.filter_eq_self.mpr (fun t ht => by simpa using h t ht)

theorem handleDeleteTopic_spec_witness :
    handleDeleteTopic "9" [{ id := "1", name := "HTML" }, { id := "2", name := "CSS" }] =
      [{ id := "1", name := "HTML" }, { id := "2", name := "CSS" }] :=
  (handleDeleteTopic_spec "9" _).2.2.2 (by decide)

end VibeCoding

namespace VibeCoding

/-- Pointwise effect of `handleUpdateTopic`: entry `i` of the result is
entry `i` of the input, with its name replaced when its id matches. -/
theorem handleUpdateTopic_get (id newName : String) (topics : List Topic)
    (i : Nat) (h1 : i < (handleUpdateTopic id newName topics).length)
    (h2 : i < topics.length) :
    (handleUpdateTopic id newName topics).get ⟨i, h1⟩ =
      if (topics.get ⟨i, h2⟩).id = id then
        { topics.get ⟨i, h2⟩ with name := newName }
      else topics.get ⟨i, h2⟩ := by
  simp [handleUpdateTopic]

/-- `handleUpdateTopic` is a no-op when no topic carries the target id. -/
theorem handleUpdateTopic_not_mem (id newName : String) (topics : List Topic)
    (h : ∀ t ∈ topics, t.id ≠ id) :
    handleUpdateTopic id newName topics = topics := by
  unfold handleUpdateTopic
  conv_rhs => rw [← List.map_id topics]
  exact List.map_congr_left (fun t ht => by simp [h t ht])

/-- Claim C3: `rename` replaces the topic whose id matches by a topic
with the same id and the new name taken verbatim (no trimming, no
rejection of the empty or whitespace-only string), leaves every other
topic unchanged, and is a no-op when no topic carries the identifier. -/
theorem handleUpdateTopic_spec (id newName : String) (topics : List Topic) :
    (handleUpdateTopic id newName topics).length = topics.length ∧
    (∀ i (h1 : i < (handleUpdateTopic id newName topics).length)
        (h2 : i < topics.length),
      (handleUpdateTopic id newName topics).get ⟨i, h1⟩ =
        if (topics.get ⟨i, h2⟩).id = id then
          { topics.get ⟨i, h2⟩ with name := newName }
        else topics.get ⟨i, h2⟩) ∧
    ((∀ t ∈ topics, t.id ≠ id) → handleUpdateTopic id newName topics = topics) := by
  refine ⟨by simp [handleUpdateTopic], ?_, handleUpdateTopic_not_mem id newName topics⟩
  intro i h1 h2
  exact handleUpdateTopic_get id newName topics i h1 h2

theorem handleUpdateTopic_spec_witness :
    (handleUpdateTopic "2" " " [{ id := "1", name := "A" }, { id := "2", name := "B" }]).get
        ⟨1, by decide⟩ = { id := "2", name := " " } ∧
    handleUpdateTopic "9" "x" [{ id := "1", name := "A" }] = [{ id := "1", name := "A" }] :=
  ⟨by rw [(handleUpdateTopic_spec "2" " " _).2.1 1 (by decide) (by decide)]; decide,
   (handleUpdateTopic_spec "9" "x" _).2.2 (by decide)⟩

/-- Claim C10: `rename` preserves the collection's length and its exact
id sequence; an entry whose id differs from the target is unchanged, and
the matching entry differs at most in its name field. -/
theorem handleUpdateTopic_frame (id newName : String) (topics : List Topic) :
    (handleUpdateTopic id newName topics).length = topics.length ∧
    topicIds (handleUpdateTopic id newName topics) = topicIds topics ∧
    (∀ i (h1 : i < (handleUpdateTopic id newName topics).length)
        (h2 : i < topics.length),
      ((handleUpdateTopic id newName topics).get ⟨i, h1⟩).id = (topics.get ⟨i, h2⟩).id ∧
      ((topics.get ⟨i, h2⟩).id ≠ id →
        (handleUpdateTopic id newName topics).get ⟨i, h1⟩ = topics.get ⟨i, h2⟩) ∧
      ((handleUpdateTopic id newName topics).get ⟨i, h1⟩).name =
        (if (topics.get ⟨i, h2⟩).id = id then newName else (topics.get ⟨i, h2⟩).name)) := by
  refine ⟨by simp [handleUpdateTopic], ?_, ?_⟩
  · unfold topicIds handleUpdateTopic
    rw [List.map_map]
    exact List.map_congr_left (fun t _ => by by_cases h : t.id = id <;> simp [h])
  · intro i h1 h2
    rw [handleUpdateTopic_get id newName topics i h1 h2]
    simp only [List.get_eq_getElem]
    by_cases h : topics[i].id = id <;> simp [h]

theorem handleUpdateTopic_frame_witness :
    topicIds (handleUpdateTopic "2" "Z" [{ id := "1", name := "A" }, { id := "2", name := "B" }])
      = ["1", "2"] ∧
    (handleUpdateTopic "2" "Z" [{ id := "1", name := "A" }, { id := "2", name := "B" }]).get
        ⟨0, by decide⟩ = { id := "1", name := "A" } :=
  ⟨by rw [(handleUpdateTopic_frame "2" "Z" _).2.1]; decide,
   ((handleUpdateTopic_frame "2" "Z" _).2.2 0 (by decide) (by decide)).2.1 (by decide)⟩

end VibeCoding

namespace VibeCoding

/-- Claim C4: `filteredTopics` is a pure function of the collection and
the query, returning exactly the subsequence of topics whose lowercased
name contains the lowercased query as a contiguous substring, in their
original relative order; the empty query returns the full collection
unchanged. -/
theorem filteredTopics_spec (q : String) (topics : List Topic) :
    filteredTopics "" topics = topics ∧
    (filteredTopics q topics).Sublist topics ∧
    (∀ t, t ∈ filteredTopics q topics ↔
      t ∈ topics ∧ (jsToLower q).data <:+: (jsToLower t.name).data) ∧
    (filteredTopics q topics).length = topics.countP (nameMatches q) := by
  refine ⟨?_, List.filter_sublist _, fun t => ?_, Eq.symm (List.countP_eq_length_filter _ _)⟩
  · refine List.filter_eq_self.mpr (fun t _ => ?_)
    simp [nameMatches, strIncludes, jsToLower]
  · simp [filteredTopics, List.mem_filter, nameMatches, strIncludes]

/-- Claim C8: in the per-topic view, the only step that leaves the
Editing state is Save, which sends the store an `updateTopic` message
carrying the locally buffered name and returns to viewing; no event
leaves Editing without sending that message (there is no cancel path),
and the delete intent is available (and sends `deleteTopic`) in every
state. -/
theorem topicViewStep_spec (s : TopicViewState) (e : ViewEvent) :
    (s.isEditing = true → ((topicViewStep s e).1).isEditing = false →
      e = ViewEvent.clickSave ∧
      (topicViewStep s e).2 = some (StoreMsg.updateTopic s.topicId s.nameBuffer)) ∧
    (s.isEditing = true →
      ((topicViewStep s ViewEvent.clickSave).1).isEditing = false ∧
      (topicViewStep s ViewEvent.clickSave).2 =
        some (StoreMsg.updateTopic s.topicId s.nameBuffer)) ∧
    (∀ t : Topic, (topicViewInit t).isEditing = false) ∧
    (topicViewStep s ViewEvent.clickDelete).2 = some (StoreMsg.deleteTopic s.topicId) := by
  refine ⟨?_, ?_, fun t => rfl, rfl⟩
  · intro hedit hleave
    cases e <;> simp [topicViewStep, hedit] at hleave ⊢
  · intro hedit
    simp [topicViewStep, hedit]

theorem topicViewStep_spec_witness :
    ViewEvent.clickSave = ViewEvent.clickSave ∧
    (topicViewStep ⟨"1", true, "Foo"⟩ ViewEvent.clickSave).2 =
      some (StoreMsg.updateTopic "1" "Foo") :=
  (topicViewStep_spec ⟨"1", true, "Foo"⟩ ViewEvent.clickSave).1 rfl (by decide)

end VibeCoding

namespace VibeCoding

/-- Identifiers of the topic collection after one store operation:
a `create` with a trimmable name prepends its fresh id, a no-op `create`
leaves them unchanged, a `delete` removes matching ids, a `rename`
leaves them unchanged. -/
theorem topicIds_applyOp_create (freshId rawName : String) (topics : List Topic) :
    topicIds (applyOp (StoreOp.create freshId rawName) topics) =
      if jsTrim rawName ≠ "" then freshId :: topicIds topics else topicIds topics := by
  by_cases h : jsTrim rawName = "" <;> simp [applyOp, handleCreateTopic, topicIds, h]

/-- `rename` never changes the id sequence of the collection. -/
theorem handleUpdateTopic_ids (id newName : String) (topics : List Topic) :
    topicIds (handleUpdateTopic id newName topics) = topicIds topics := by
  unfold topicIds handleUpdateTopic
  rw [List.map_map]
  exact List.map_congr_left (fun t _ => by by_cases h : t.id = id <;> simp [h])

/-- Claim C5: starting from a seed whose topic identifiers are pairwise
distinct, and with an identifier source that never re-issues an
identifier (the seed ids together with all `create` fresh ids are
pairwise distinct), every finite sequence of create, delete and rename
operations keeps the collection's topic identifiers pairwise distinct. -/
theorem runOps_ids_nodup (ops : List StoreOp) (seed : List Topic)
    (h : (topicIds seed ++ createIds ops).Nodup) :
    (topicIds (runOps ops seed)).Nodup := by
  induction ops generalizing seed with
  | nil => simpa [createIds, runOps] using h
  | cons op rest ih =>
      show (topicIds (runOps rest (applyOp op seed))).Nodup
      refine ih (applyOp op seed) ?_
      cases op with
      | create freshId rawName =>
          rw [topicIds_applyOp_create]
          by_cases hname : jsTrim rawName = ""
          · simp only [hname, ne_eq, not_true_eq_false, if_false]
            exact (by simpa [createIds] using h :
                (topicIds seed ++ freshId :: createIds rest).Nodup).sublist
              (List.Sublist.append_left (List.sublist_cons_self freshId _) _)
          · simp only [ne_eq, hname, not_false_eq_true, if_true]
            have h' : (topicIds seed ++ freshId :: createIds rest).Nodup := by
              simpa [createIds] using h
            exact List.perm_middle.nodup h'
      | delete id =>
          have h' : (topicIds seed ++ createIds rest).Nodup := by
            simpa [createIds] using h
          refine h'.sublist (List.Sublist.append_right ?_ _)
          simpa [applyOp, handleDeleteTopic, topicIds] using
            ((List.filter_sublist seed).map Topic.id)
      | rename id newName =>
          have h' : (topicIds seed ++ createIds rest).Nodup := by
            simpa [createIds] using h
          simpa [applyOp, handleUpdateTopic_ids] using h'

theorem runOps_ids_nodup_witness :
    (topicIds (runOps
        [StoreOp.create "5" " TS ", StoreOp.delete "2", StoreOp.rename "1" "X"]
        [{ id := "1", name := "HTML" }, { id := "2", name := "CSS" }])).Nodup :=
  runOps_ids_nodup _ _ (by decide)

end VibeCoding

namespace VibeCoding

/-- Counterexample to claim C6: `rename` commits its argument verbatim,
so renaming a topic to the empty string produces a collection containing
an empty name even though the seed had none. -/
theorem rename_commits_empty_name :
    (∀ t ∈ ([{ id := "1", name := "HTML" }] : List Topic), t.name ≠ "") ∧
    ¬ (∀ t ∈ runOps [StoreOp.rename "1" ""] [{ id := "1", name := "HTML" }],
        t.name ≠ "") := by
  decide

/-- One store operation preserves non-emptiness of all names, provided
it is not a rename to the empty string: a successful `create` commits a
non-empty trimmed name, `delete` only removes topics, and a `rename`
with a non-empty argument commits that argument. -/
theorem applyOp_names_nonempty (op : StoreOp) (topics : List Topic)
    (h : ∀ t ∈ topics, t.name ≠ "")
    (hop : ∀ id newName, op = StoreOp.rename id newName → newName ≠ "") :
    ∀ t ∈ applyOp op topics, t.name ≠ "" := by
  cases op with
  | create freshId rawName =>
      intro t ht
      by_cases hname : jsTrim rawName = ""
      · rw [show applyOp (StoreOp.create freshId rawName) topics = topics by
          simp [applyOp, handleCreateTopic, hname]] at ht
        exact h t ht
      · rw [show applyOp (StoreOp.create freshId rawName) topics =
            { id := freshId, name := jsTrim rawName } :: topics by
          simp [applyOp, handleCreateTopic, hname]] at ht
        rcases List.mem_cons.mp ht with rfl | ht'
        · simpa using hname
        · exact h t ht'
  | delete id =>
      intro t ht
      exact h t ((List.filter_sublist topics).subset ht)
  | rename id newName =>
      intro t ht
      simp only [applyOp, handleUpdateTopic, List.mem_map] at ht
      rcases ht with ⟨s, hs, rfl⟩
      by_cases hid : s.id = id
      · simpa [hid] using hop id newName rfl
      · simpa [hid] using h s hs

/-- Claim C6 (amended): for every finite sequence of create, delete and
rename operations in which every rename carries a non-empty new name,
starting from a collection with no empty names, every topic name in the
resulting collection is non-empty.  (As the counterexample shows, the
original claim fails because `rename` neither trims nor rejects its
argument: a rename to the empty string commits the empty string.) -/
theorem runOps_names_nonempty (ops : List StoreOp) (seed : List Topic)
    (hseed : ∀ t ∈ seed, t.name ≠ "")
    (hops : ∀ id newName, StoreOp.rename id newName ∈ ops → newName ≠ "") :
    ∀ t ∈ runOps ops seed, t.name ≠ "" := by
  induction ops generalizing seed with
  | nil => simpa [runOps] using hseed
  | cons op rest ih =>
      show ∀ t ∈ runOps rest (applyOp op seed), t.name ≠ ""
      refine ih (applyOp op seed) ?_ ?_
      · exact applyOp_names_nonempty op seed hseed
          (fun id newName hop => hops id newName (by simp [hop]))
      · exact fun id newName hmem => hops id newName (List.mem_cons_of_mem op hmem)

theorem runOps_names_nonempty_witness :
    { id := "5", name := "TS" } ∈ runOps [StoreOp.create "5" " TS ", StoreOp.rename "1" "X"]
        [{ id := "1", name := "HTML" }] ∧
    Topic.name { id := "5", name := "TS" } ≠ "" :=
  ⟨by decide, runOps_names_nonempty
    [StoreOp.create "5" " TS ", StoreOp.rename "1" "X"]
    [{ id := "1", name := "HTML" }] (by decide)
    (by
      intro id newName hmem
      simp only [List.mem_cons, List.not_mem_nil, or_false] at hmem
      rcases hmem with h | h
      · exact StoreOp.noConfusion h
      · injection h with h1 h2
        subst h2
        decide)
    { id := "5", name := "TS" } (by decide)⟩

end VibeCoding

namespace VibeCoding

/-- Counterexample to claim C7: renaming topic "2" to "Foo" in a
collection where another topic is already named "Foo" yields two topics
named "Foo", not exactly one, even though "2" is present. -/
theorem rename_roundtrip_cex :
    "2" ∈ topicIds [{ id := "1", name := "Foo" }, { id := "2", name := "Bar" }] ∧
    (handleUpdateTopic "2" "Foo"
        [{ id := "1", name := "Foo" }, { id := "2", name := "Bar" }]).countP
      (fun t => t.name = "Foo") = 2 := by
  decide

/-- Claim C7 (amended): if the collection's topic identifiers are
pairwise distinct, the given identifier is present, and no topic other
than the target is already named "Foo", then after renaming that
identifier to "Foo" the collection shows exactly one topic named "Foo",
and every topic named "Foo" carries the given identifier.  (The original
claim fails when a second topic already bears the name "Foo", as the
counterexample shows.) -/
theorem rename_roundtrip (id : String) (topics : List Topic)
    (hmem : id ∈ topicIds topics)
    (hnodup : (topicIds topics).Nodup)
    (hother : ∀ t ∈ topics, t.id ≠ id → t.name ≠ "Foo") :
    (handleUpdateTopic id "Foo" topics).countP (fun t => t.name = "Foo") = 1 ∧
    (∀ t ∈ handleUpdateTopic id "Foo" topics, t.name = "Foo" → t.id = id) := by
  constructor
  · have h1 : (handleUpdateTopic id "Foo" topics).countP (fun t => t.name = "Foo") =
        topics.countP (fun t => t.id = id) := by
      unfold handleUpdateTopic
      rw [List.countP_map]
      apply List.countP_congr
      intro t ht
      by_cases hid : t.id = id
      · simp [Function.comp, hid]
      · simp [Function.comp, hid, hother t ht hid]
    have h2 : topics.countP (fun t => t.id = id) = (topicIds topics).count id := by
      unfold topicIds
      rw [List.count, List.countP_map]
      apply List.countP_congr
      intro t ht
      simp [Function.comp]
    rw [h1, h2]
    exact List.count_eq_one_of_mem hnodup hmem
  · intro t ht hname
    simp only [handleUpdateTopic, List.mem_map] at ht
    rcases ht with ⟨s, hs, rfl⟩
    by_cases hid : s.id = id
    · simp [hid]
    · exact absurd (by simpa [hid] using hname) (hother s hs hid)

theorem rename_roundtrip_witness :
    (handleUpdateTopic "2" "Foo"
        [{ id := "1", name := "A" }, { id := "2", name := "B" }]).countP
      (fun t => t.name = "Foo") = 1 :=
  (rename_roundtrip "2" [{ id := "1", name := "A" }, { id := "2", name := "B" }]
    (by decide) (by decide) (by decide)).1

end VibeCoding
